import Mathlib

/-!
Verification of the FVI (Future Viability Index) scoring and aggregation
engine against its natural-language specification.

The definitions below are a shallow embedding of the Python sources:
  * `src/frontend/scores/utils.py` (country standardization, directional
    normalization, single-value normalization, latest-row selection),
  * `src/frontend/scores/resource.py` (dataset classification-driven metric
    extraction and the resource feature scorer),
  * `src/frontend/scores/infrastructure.py` (per-dataset scores and their
    weighted aggregation),
  * `src/frontend/fvi_aggregator.py` (persona weights, composite FVI).

Real numbers in the Python code are embedded as rationals (`ℚ`); `NaN` /
missing values are embedded as `Option` `none`.  External library calls with
irrational results (`np.log10`, `scipy.stats.zscore`, `percentileofscore`)
are abstracted as function parameters; nothing proved below depends on their
values.
-/

namespace FVI

/-- Python `str.lower()` (ASCII), computed on the character list so that the
kernel can evaluate it. -/
def sLower (s : String) : String := ⟨s.data.map Char.toLower⟩

/-- Python `str.upper()` (ASCII). -/
def sUpper (s : String) : String := ⟨s.data.map Char.toUpper⟩

/-- Python `str.strip()`: drop whitespace from both ends. -/
def sTrim (s : String) : String :=
  ⟨((s.data.dropWhile Char.isWhitespace).reverse.dropWhile
      Char.isWhitespace).reverse⟩

/-- Python `str.replace(" ", "")`. -/
def sNoSpaces (s : String) : String := ⟨s.data.filter (fun c => c ≠ ' ')⟩

/-- Python `"pat" in s` substring test. -/
def sContainsSub (hay pat : String) : Bool :=
  (List.range (hay.data.length + 1)).any
    (fun i => pat.data.isPrefixOf (hay.data.drop i))

/-- Clamp a rational to the interval `[0, 100]` (pandas `clip(0, 100)`,
Python `max(0.0, min(100.0, x))`). -/
def clamp (x : ℚ) : ℚ := max 0 (min 100 x)

theorem clamp_nonneg (x : ℚ) : 0 ≤ clamp x := le_max_left 0 _

theorem clamp_le_100 (x : ℚ) : clamp x ≤ 100 := by
  unfold clamp
  rcases le_total 100 x with h | h
  · simp [min_eq_left h]
  · have : min 100 x = x := min_eq_right h
    rw [this]
    rcases le_total 0 x with h0 | h0
    · simpa [max_eq_right h0] using h
    · simp [max_eq_left h0]

theorem clamp_of_mem (x : ℚ) (h0 : 0 ≤ x) (h1 : x ≤ 100) : clamp x = x := by
  unfold clamp
  rw [min_eq_right h1, max_eq_right h0]

/-! ## Country standardization (`utils.standardize_country_name`) -/

/-- The `COUNTRY_MAPPING` table from `scores/utils.py`: ISO3 codes to
canonical country names. -/
def COUNTRY_MAPPING : List (String × String) :=
  [("USA", "United States"), ("CHN", "China"), ("IND", "India"),
   ("DEU", "Germany"), ("RUS", "Russia"), ("KOR", "South Korea"),
   ("GBR", "United Kingdom"), ("FRA", "France"), ("JPN", "Japan"),
   ("BRA", "Brazil"), ("CAN", "Canada"), ("AUS", "Australia"),
   ("SAU", "Saudi Arabia"), ("ZAF", "South Africa"), ("ITA", "Italy"),
   ("ESP", "Spain"), ("NLD", "Netherlands"), ("POL", "Poland"),
   ("IDN", "Indonesia"), ("TUR", "Turkey"), ("MEX", "Mexico"),
   ("IRN", "Iran"), ("THA", "Thailand"), ("ARE", "United Arab Emirates"),
   ("EGY", "Egypt"), ("ISR", "Israel"), ("NOR", "Norway"),
   ("ARG", "Argentina"), ("IRL", "Ireland"), ("MYS", "Malaysia"),
   ("BGD", "Bangladesh"), ("PHL", "Philippines"), ("SGP", "Singapore"),
   ("CHL", "Chile"), ("FIN", "Finland"), ("DNK", "Denmark"),
   ("NZL", "New Zealand"), ("SWE", "Sweden"), ("AUT", "Austria"),
   ("ISL", "Iceland"), ("BEL", "Belgium"), ("CHE", "Switzerland")]

/-- The local `aliases` table inside `standardize_country_name`. -/
def countryAliases : List (String × String) :=
  [("UK", "United Kingdom"), ("US", "United States"),
   ("USA", "United States"),
   ("United States of America", "United States"),
   ("S. Korea", "South Korea"), ("Viet Nam", "Vietnam"),
   ("Congo", "Democratic Republic of the Congo"),
   ("Ivory Coast", "Côte d'Ivoire"), ("Russian Federation", "Russia"),
   ("Iran, Islamic Rep.", "Iran"), ("Egypt, Arab Rep.", "Egypt")]

/-- `standardize_country_name` on a non-null string input: trim, try the
upper-cased ISO3 mapping, then the alias table, else pass through. -/
def stdStr (name : String) : String :=
  let t := sTrim name
  match COUNTRY_MAPPING.lookup (sUpper t) with
  | some canon => canon
  | none => (countryAliases.lookup t).getD t

/-- `standardize_country_name` with `None` / `NaN` embedded as `none`. -/
def standardize_country_name (name : Option String) : Option String :=
  match name with
  | none => none
  | some s => some (stdStr s)

/-! ## Directional normalization (`utils.normalize_series`, `normalize_score`)

A pandas `Series` is embedded as a list of `(index label, value)` pairs with
`NaN` as `none` (the code's `pd.to_numeric(..., errors="coerce")` step is
folded into the `Option ℚ` representation). -/

/-- The three normalization methods of `normalize_series`. -/
inductive NormMethod where
  | min_max
  | z_score
  | percentile
deriving DecidableEq

/-- The non-missing values of a series, in order. -/
def seriesVals (series : List (String × Option ℚ)) : List ℚ :=
  series.filterMap Prod.snd

/-- The min-max rescaling `100 * (x - min) / (max - min)` of one value
against a population, with the degenerate `max == min` population mapped to
the neutral 50 (the code's `normalized = pd.Series([50] * len(s))` branch). -/
def minmaxScale (vals : List ℚ) (x : ℚ) : ℚ :=
  let mn := vals.min?.getD 0
  let mx := vals.max?.getD 0
  if mn = mx then 50 else 100 * (x - mn) / (mx - mn)

/-- The label/value pairs surviving `dropna` (the code's local `s`). -/
def presentPairs (series : List (String × Option ℚ)) :
    List (String × ℚ) :=
  series.filterMap (fun p => p.2.map (fun v => (p.1, v)))

/-- The scaled values of `normalize_series` before direction handling:
the three `method` branches of the source. -/
def scaledVals (zf pf : List ℚ → List ℚ) (vals : List ℚ) :
    NormMethod → List ℚ
  | .min_max =>
      if vals.min?.getD 0 = vals.max?.getD 0 then vals.map (fun _ => 50)
      else vals.map (fun x =>
        100 * (x - vals.min?.getD 0) / (vals.max?.getD 0 - vals.min?.getD 0))
  | .z_score => (zf vals).map (fun z => clamp (50 + z * 50 / 3))
  | .percentile => pf vals

/-- The direction step: `if not higher_is_better: normalized = 100 -
normalized`. -/
def directedVals (zf pf : List ℚ → List ℚ) (vals : List ℚ)
    (higher_is_better : Bool) (method : NormMethod) : List ℚ :=
  if higher_is_better then scaledVals zf pf vals method
  else (scaledVals zf pf vals method).map (fun x => 100 - x)

/-- `utils.normalize_series`.  `zf` and `pf` abstract the external
`scipy.stats.zscore` and `percentileofscore` computations (their results are
irrational in general); every theorem below holds for all choices.  Dropping
missing values, scaling by the chosen method, inverting when
`higher_is_better` is false, and re-indexing onto the original index with
neutral 50 for missing entries all follow the source (the source's local
bindings are inlined through `presentPairs` / `scaledVals` /
`directedVals`). -/
def normalize_series (zf pf : List ℚ → List ℚ)
    (series : List (String × Option ℚ)) (higher_is_better : Bool)
    (method : NormMethod) : List (String × ℚ) :=
  if (presentPairs series).isEmpty then series.map (fun p => (p.1, 50))
  else
    series.map (fun p => (p.1,
      ((((presentPairs series).map Prod.fst).zip
          (directedVals zf pf ((presentPairs series).map Prod.snd)
            higher_is_better method)).lookup p.1).getD 50))

/-- `utils.normalize_score`: single-value linear rescale with clamping; the
missing / unparseable input and the degenerate `min_val == max_val` range
both return the caller-supplied default. -/
def normalize_score (value : Option ℚ) (min_val max_val default : ℚ) : ℚ :=
  match value with
  | none => default
  | some v =>
      if min_val = max_val then default
      else clamp (100 * (v - min_val) / (max_val - min_val))

/-! ## Raw tabular datasets

A raw dataset is a list of rows; a cell holds a string or a number, with
`NaN` embedded as `none`.  Column presence in a row (`'x' in row.index`) is
separate from the cell being non-missing (`pd.notna`). -/

/-- One cell payload: string or numeric. -/
inductive Val where
  | str : String → Val
  | num : ℚ → Val
deriving DecidableEq

/-- A row: association list column-name to cell (with `NaN` as `none`). -/
abbrev Row := List (String × Option Val)

/-- A table with a column list and rows. -/
structure Table where
  cols : List String
  rows : List Row
deriving DecidableEq

/-- The entry of `r` at column `c`, if the column is present in the row. -/
def rowFind (r : Row) (c : String) : Option (Option Val) :=
  (r.find? (fun p => p.1 = c)).map Prod.snd

/-- The cell of `r` at column `c`; a missing column reads as `NaN`. -/
def rowCell (r : Row) (c : String) : Option Val :=
  (rowFind r c).getD none

/-- The numeric value of `r` at column `c` when present and non-missing.
A string cell is treated as missing (`float(...)` on a string would raise
in the source; no claim depends on that corner). -/
def rowNum (r : Row) (c : String) : Option ℚ :=
  match rowCell r c with
  | some (.num q) => some q
  | _ => none

/-- The string payload of a cell, when it is a string. -/
def cellStr : Option Val → Option String
  | some (.str s) => some s
  | _ => none

/-- `standardize_country_name` applied to a raw cell: `NaN` gives `None`; a
numeric cell is modelled as non-matching (its Python `str()` form never
names a country in any claim-relevant input). -/
def cellStd (v : Option Val) : Option String :=
  (cellStr v).map stdStr

/-- Keep, for each key (computed by `f`), only the last row carrying it:
pandas `drop_duplicates(subset=[col], keep="last")`, which also treats
`NaN` keys as equal. -/
def keepLastBy (f : Row → Option Val) : List Row → List Row
  | [] => []
  | r :: rs =>
      if rs.any (fun r' => f r' == f r) then keepLastBy f rs
      else r :: keepLastBy f rs

/-- First `some` produced by `f` along a list. -/
def firstSome (f : α → Option β) : List α → Option β
  | [] => none
  | a :: rest =>
      match f a with
      | some b => some b
      | none => firstSome f rest

/-! ## Resource metric extraction (`scores/resource.py`) -/

/-- `COUNTRY_COLS` from `resource.py`. -/
def COUNTRY_COLS : List String := ["entity", "country", "country_name"]

/-- `_candidate_names`: the country itself, its space-free form, its
standardized form, the USA special cases; empty strings dropped.  The Python
set is embedded as a duplicate-free list (it is only used for membership). -/
def candidate_names (c : String) : List String :=
  let names := [c, sNoSpaces c, stdStr c]
  let names :=
    if sUpper c = "USA" || sUpper c = "US" then
      names ++ ["United States", "United States of America"]
    else names
  names.eraseDups.filter (fun n => n ≠ "")

/-- Ascending order on year cells with `NaN` greatest: pandas
`sort_values("year")` places `NaN` last. -/
def yearLE (a b : Option ℚ) : Bool :=
  match a, b with
  | some x, some y => x ≤ y
  | some _, none => true
  | none, some _ => false
  | none, none => true

/-- The year-sort relation on rows used by `_latest_by_country`. -/
def rowYearLE (a b : Row) : Prop :=
  yearLE (rowNum a "year") (rowNum b "year") = true

instance : DecidableRel rowYearLE := fun a b => by
  unfold rowYearLE; infer_instance

/-- `_latest_by_country`: pick the first country-like column; with a year
column, sort by year (ascending, `NaN` last; the source's unstable
`quicksort` is embedded as a stable sort — ties are resolved arbitrarily
there) and keep the last row per country, else keep the last occurrence per
country. -/
def latest_by_country (t : Table) : Table :=
  match COUNTRY_COLS.find? (fun c => t.cols.contains c) with
  | none => t
  | some ccol =>
      if t.cols.contains "year" then
        let sorted := List.insertionSort rowYearLE t.rows
        { t with rows := keepLastBy (fun r => rowCell r ccol) sorted }
      else
        { t with rows := keepLastBy (fun r => rowCell r ccol) t.rows }

/-- Inner loop of `_match_row` over the country-like columns. -/
def matchRowLoop (t : Table) (cands : List String) : List String → Option Row
  | [] => none
  | col :: rest =>
      if t.cols.contains col then
        let hit := t.rows.filter (fun r =>
          match cellStr (rowCell r col) with
          | some s => cands.contains s
          | none => false)
        match hit.getLast? with
        | some r => some r
        | none => matchRowLoop t cands rest
      else matchRowLoop t cands rest

/-- `_match_row`: latest rows, then the first country-like column whose
`isin(candidates)` filter is non-empty; its last matching row wins. -/
def match_row (t : Table) (country : String) : Option Row :=
  matchRowLoop (latest_by_country t) (candidate_names country) COUNTRY_COLS

/-- One probe of the preferred-kind loop body of `_get_metric_from_kinds`:
look the key up among the loaded datasets, require the column, match a row,
return its non-missing value. -/
def tryKey (datasets : List (String × Table)) (country column : String)
    (key : String) : Option ℚ :=
  match datasets.lookup key with
  | none => none
  | some df =>
      if df.cols.contains column then
        match match_row df country with
        | some row => rowNum row column
        | none => none
      else none

/-- The body shared by the last-resort scan (which iterates the dataset
dictionary directly). -/
def tryDf (country column : String) (df : Table) : Option ℚ :=
  if df.cols.contains column then
    match match_row df country with
    | some row => rowNum row column
    | none => none
  else none

/-- Inner key loop of the preferred-kind phase. -/
def innerKeys (datasets : List (String × Table)) (country column : String) :
    List String → Option ℚ
  | [] => none
  | key :: rest =>
      match tryKey datasets country column key with
      | some v => some v
      | none => innerKeys datasets country column rest

/-- Outer preferred-kind loop. -/
def prefKinds (datasets : List (String × Table))
    (kindIndex : List (String × List String)) (country column : String) :
    List String → Option ℚ
  | [] => none
  | kind :: rest =>
      match innerKeys datasets country column ((kindIndex.lookup kind).getD []) with
      | some v => some v
      | none => prefKinds datasets kindIndex country column rest

/-- Last-resort scan over every loaded dataset. -/
def fallbackScan (country column : String) :
    List (String × Table) → Option ℚ
  | [] => none
  | (_, df) :: rest =>
      match tryDf country column df with
      | some v => some v
      | none => fallbackScan country column rest

/-- `_get_metric_from_kinds`: preferred kinds in order, then the fallback
scan; `None` when nothing matches. -/
def get_metric_from_kinds (datasets : List (String × Table))
    (kindIndex : List (String × List String)) (country : String)
    (preferences : List String) (column : String) : Option ℚ :=
  match prefKinds datasets kindIndex country column preferences with
  | some v => some v
  | none => fallbackScan country column datasets

/-! ## Resource feature scoring (`resource._score_from_features`) -/

def W_PRODUCTION : ℚ := 0.30
def W_RESERVES : ℚ := 0.30
def W_RP : ℚ := 0.20
def W_LAND_SHARE : ℚ := 0.10
def W_WATER_SHARE : ℚ := 0.05
def W_PROD_SHARE : ℚ := 0.05
def CAP_PRODUCTION : ℚ := 5000
def LOG_RES_MIN : ℚ := 2
def LOG_RES_MAX : ℚ := 6
def CAP_RP : ℚ := 200

/-- The fraction-vs-percentage heuristic `v * 100 if v <= 1.0 else v`. -/
def pctHeuristic (v : ℚ) : ℚ := if v ≤ 1 then v * 100 else v

/-- `_score_from_features`.  `log10` abstracts `np.log10` (irrational in
general); every theorem below holds for all choices of it. -/
def score_from_features (log10 : ℚ → ℚ) (features : List (String × ℚ)) : ℚ :=
  let comps : List ℚ :=
    (match features.lookup "production_mt" with
     | some v => [normalize_score (some v) 0 CAP_PRODUCTION 50 * W_PRODUCTION]
     | none => []) ++
    (match features.lookup "proven_reserves_mt" with
     | some v =>
        let res := max 1 v
        let resLog := max LOG_RES_MIN (min LOG_RES_MAX (log10 res))
        [normalize_score (some resLog) LOG_RES_MIN LOG_RES_MAX 50 * W_RESERVES]
     | none => []) ++
    (match features.lookup "r_p_ratio" with
     | some v => [normalize_score (some (min v CAP_RP)) 0 CAP_RP 50 * W_RP]
     | none => []) ++
    (match features.lookup "land_mined_share" with
     | some v => [max 0 (min 100 (100 - pctHeuristic v)) * W_LAND_SHARE]
     | none => []) ++
    (match features.lookup "water_usage_share" with
     | some v => [max 0 (min 100 (100 - pctHeuristic v)) * W_WATER_SHARE]
     | none => []) ++
    (match features.lookup "production_share" with
     | some v => [max 0 (min 100 (pctHeuristic v)) * W_PROD_SHARE]
     | none => [])
  if comps.isEmpty then 50 else min 100 (max 0 comps.sum)

/-! ## Infrastructure per-dataset scoring (`scores/infrastructure.py`) -/

/-- Order on group keys used to model `groupby`'s sorted key order (mixed
string/number keys would raise in Python; numbers are ordered before
strings here). -/
def valLE (a b : Val) : Bool :=
  match a, b with
  | .num x, .num y => x ≤ y
  | .str x, .str y => x ≤ y
  | .num _, .str _ => true
  | .str _, .num _ => false

/-- The key-sort relation on cells. -/
def keyLE (a b : Val) : Prop := valLE a b = true

instance : DecidableRel keyLE := fun a b => by
  unfold keyLE; infer_instance

/-- `groupby(country_col)[year_col].idxmax()` for one group: the first row
of the group achieving the maximal non-missing year (a group whose years
are all missing would raise in Python and is skipped here). -/
def pickMaxYearRow (rows : List Row) (k : Val) : Option Row :=
  let grp := rows.filter (fun r => rowCell r "country_name" == some k)
  let withYear := grp.filter (fun r => (rowNum r "year").isSome)
  match (withYear.filterMap (fun r => rowNum r "year")).max? with
  | none => none
  | some m => withYear.find? (fun r => rowNum r "year" == some m)

/-- `utils.get_latest_data_by_country` with its default
`country_name`/`year` column names. -/
def get_latest_data_by_country (t : Table) : Table :=
  if t.rows.isEmpty || t.cols.isEmpty || !(t.cols.contains "country_name") then t
  else if t.cols.contains "year" then
    let keys := ((t.rows.map (fun r => rowCell r "country_name")).filterMap id).eraseDups
    let keys := List.insertionSort keyLE keys
    { t with rows := keys.filterMap (fun k => pickMaxYearRow t.rows k) }
  else
    { t with rows := keepLastBy (fun r => rowCell r "country_name") t.rows }

/-- The `score * 100 if score <= 1.0 else score` conversion of
`_calculate_scores_for_dataset`. -/
def hscale (q : ℚ) : ℚ := if q ≤ 1 then q * 100 else q

/-- The per-row score chain of `_calculate_scores_for_dataset`: the five
`*_score` columns in order (missing or `NaN` falls through), then
`electricity_coal_pct` as-is, then the neutral 50. -/
def row_dataset_score (r : Row) : ℚ :=
  match rowNum r "coal_dependency_score" with
  | some q => hscale q
  | none =>
    match rowNum r "transition_feasibility_score" with
    | some q => hscale q
    | none =>
      match rowNum r "hazard_score" with
      | some q => hscale q
      | none =>
        match rowNum r "reclamation_potential_score" with
        | some q => hscale q
        | none =>
          match rowNum r "root_cause_score" with
          | some q => hscale q
          | none =>
            match rowNum r "electricity_coal_pct" with
            | some q => q
            | none => 50

/-- The row set `_calculate_scores_for_dataset` selects for one country:
exact match on the country column, else the alternate standardized-name
match over the column's unique values. -/
def country_rows (latest : Table) (ccol country : String) : List Row :=
  if (latest.rows.filter
      (fun r => rowCell r ccol == some (.str country))).isEmpty then
    match ((latest.rows.map (fun r => rowCell r ccol)).eraseDups).find?
        (fun dc => cellStd dc == some (stdStr country)) with
    | some dc => latest.rows.filter (fun r => rowCell r ccol == dc)
    | none => []
  else latest.rows.filter (fun r => rowCell r ccol == some (.str country))

/-- The per-country score of `_calculate_scores_for_dataset`: the score
chain on the last selected row, neutral 50 when no row matches. -/
def country_score (latest : Table) (ccol country : String) : ℚ :=
  match (country_rows latest ccol country).getLast? with
  | some r => row_dataset_score r
  | none => 50

/-- `_calculate_scores_for_dataset` (the `dataset_name` argument only feeds
logging and is dropped).  Duplicate entries of `country_list` each produce
a pair here where the Python dict would merge them — with identical values,
since the score per country is deterministic. -/
def calculate_scores_for_dataset (t : Table) (country_list : List String) :
    List (String × ℚ) :=
  match (get_latest_data_by_country t).cols.filter
      (fun c => sContainsSub (sLower c) "country") with
  | [] => []
  | ccol :: _ =>
    country_list.map (fun country =>
      (country, country_score (get_latest_data_by_country t) ccol country))

/-- The `default_weights` table of `_aggregate_infrastructure_scores`. -/
def default_component_weights : List (String × ℚ) :=
  [("coal_dependency", 0.25), ("transition_readiness", 0.20),
   ("environmental_impact", 0.20), ("infrastructure_quality", 0.20),
   ("policy_framework", 0.15)]

/-- `default_weights.get(component, 1.0 / len(component_scores))`. -/
def componentWeight (n : ℕ) (comp : String) : ℚ :=
  (default_component_weights.lookup comp).getD (1 / n)

/-- The literal fallback table of `_fallback_infrastructure_scores`. -/
def fallback_infra_table : List (String × ℚ) :=
  [("India", 65), ("China", 75), ("Germany", 35), ("USA", 45),
   ("Australia", 60), ("Indonesia", 70), ("South Africa", 80), ("Poland", 55)]

/-- `_fallback_infrastructure_scores`: falsy (empty) country list replaced
by the default eight, unknown countries get 55. -/
def fallback_infrastructure_scores (country_list : List String) :
    List (String × ℚ) :=
  let cl := if country_list.isEmpty then
      ["India", "China", "Germany", "USA", "Australia", "Indonesia",
       "South Africa", "Poland"]
    else country_list
  cl.map (fun c => (c, (fallback_infra_table.lookup c).getD 55))

/-- The `(component, score)` pairs available for one country
(`if country in scores` over the component dictionary). -/
def componentEntries (cs : List (String × List (String × ℚ)))
    (country : String) : List (String × ℚ) :=
  cs.filterMap (fun p => (p.2.lookup country).map (fun v => (p.1, v)))

/-- The per-country weighted average of `_aggregate_infrastructure_scores`
(neutral 50 when no component covers the country or the weights sum to 0). -/
def aggCountryScore (cs : List (String × List (String × ℚ)))
    (country : String) : ℚ :=
  if (componentEntries cs country).isEmpty then 50
  else if 0 < ((componentEntries cs country).map
      (fun p => componentWeight cs.length p.1)).sum then
    ((componentEntries cs country).map
        (fun p => p.2 * componentWeight cs.length p.1)).sum
      / ((componentEntries cs country).map
        (fun p => componentWeight cs.length p.1)).sum
  else 50

/-- `_aggregate_infrastructure_scores`: weighted average of the component
scores available for each country, neutral 50 when none. -/
def aggregate_infrastructure_scores
    (component_scores : List (String × List (String × ℚ)))
    (country_list : List String) : List (String × ℚ) :=
  if component_scores.isEmpty then fallback_infrastructure_scores country_list
  else
    country_list.map (fun country =>
      (country, aggCountryScore component_scores country))

/-! ## Composite aggregation (`fvi_aggregator.py`)

A dimension-score DataFrame is embedded column-major: an index of country
labels plus named columns of optional (possibly `NaN`) rationals. -/

/-- rows = countries, columns = dimension scores. -/
structure DFrame where
  index : List String
  cols : List (String × List (Option ℚ))
deriving DecidableEq

/-- Column-name standardization of `compute_fvi`:
`col.lower().replace(' ', '_').replace('-', '_')`. -/
def normCol (s : String) : String :=
  ⟨s.data.map (fun c => if c = ' ' || c = '-' then '_' else c.toLower)⟩

/-- pandas `Series.median()` (linear interpolation: mean of the two middle
order statistics for an even count), `none` on an all-missing column. -/
def median? (xs : List ℚ) : Option ℚ :=
  match xs with
  | [] => none
  | _ =>
    let s := List.insertionSort (· ≤ ·) xs
    let n := s.length
    if n % 2 = 1 then s.get? (n / 2)
    else
      match s.get? (n / 2 - 1), s.get? (n / 2) with
      | some a, some b => some ((a + b) / 2)
      | _, _ => none

/-- The fill value of `compute_fvi`'s missing-value step: the column median,
or 50 when the median itself is undefined. -/
def fillValue (vs : List (Option ℚ)) : ℚ :=
  (median? (vs.filterMap id)).getD 50

/-- `fillna(median)` on one column. -/
def fillColumn (vs : List (Option ℚ)) : List ℚ :=
  vs.map (fun v => v.getD (fillValue vs))

/-- The renamed column list of the internal copy. -/
def renamedCols (df : DFrame) : List (String × List (Option ℚ)) :=
  df.cols.map (fun p => (normCol p.1, p.2))

/-- `self.scores_df.columns.intersection(weights.index)`: the renamed
columns that carry a weight, in column order. -/
def availableCols (w : List (String × ℚ)) (df : DFrame) : List String :=
  ((renamedCols df).map Prod.fst).filter (fun c => (w.map Prod.fst).contains c)

/-- Weight lookup (never defaulted on the columns actually used). -/
def wGet (w : List (String × ℚ)) (c : String) : ℚ := (w.lookup c).getD 0

/-- Column selection by name. -/
def getCol (cols : List (String × List (Option ℚ))) (c : String) :
    List (Option ℚ) :=
  ((cols.find? (fun p => p.1 = c)).map Prod.snd).getD []

/-- Pointwise sum of two columns (one step of `sum(axis=1)`). -/
def zipAdd (a b : List ℚ) : List ℚ := List.zipWith (· + ·) a b

/-- IEEE-faithful `(num / den).clip(0, 100)`: division by a zero weight sum
gives `NaN` (`none`) for a zero numerator and a clipped infinity otherwise.
Defined personas never hit the `den = 0` case. -/
def divClip (num den : ℚ) : Option ℚ :=
  if den = 0 then
    if num = 0 then none
    else if 0 < num then some 100 else some 0
  else some (clamp (num / den))

/-- `weights[available_cols].sum()`. -/
def fviDen (w : List (String × ℚ)) (df : DFrame) : ℚ :=
  ((availableCols w df).map (fun c => wGet w c)).sum

/-- `self.scores_df[available_cols] * weights[available_cols]`: each
intersected column, median-filled and multiplied by its weight. -/
def fviWeighted (w : List (String × ℚ)) (df : DFrame) : List (List ℚ) :=
  (availableCols w df).map
    (fun c => (fillColumn (getCol (renamedCols df) c)).map
      (fun x => x * wGet w c))

/-- `weighted_scores.sum(axis=1)`: fold the weighted columns pointwise. -/
def fviRowSums (w : List (String × ℚ)) (df : DFrame) : List ℚ :=
  (fviWeighted w df).foldl zipAdd (List.replicate df.index.length 0)

/-- `FVI_Aggregator.compute_fvi` with the active weight vector `w`: empty
input gives an empty series; empty column/weight intersection gives an
empty series; otherwise median-fill the intersected columns, multiply each
by its weight, sum across columns, divide by the weight sum and clip. -/
def compute_fvi (w : List (String × ℚ)) (df : DFrame) :
    List (String × Option ℚ) :=
  if df.index.isEmpty || df.cols.isEmpty then []
  else if (availableCols w df).isEmpty then []
  else df.index.zip
    ((fviRowSums w df).map (fun s => divClip s (fviDen w df)))

/-- The `_set_default_weights` persona table. -/
def personaWeights : List (String × List (String × ℚ)) :=
  [("investor",
    [("economic", 0.25), ("artificial_support", 0.20), ("emissions", 0.20),
     ("infrastructure", 0.15), ("resource", 0.10), ("ecological", 0.05),
     ("necessity", 0.05)]),
   ("policy_maker",
    [("necessity", 0.20), ("economic", 0.20), ("emissions", 0.20),
     ("infrastructure", 0.15), ("ecological", 0.15),
     ("artificial_support", 0.05), ("resource", 0.05)]),
   ("ngo",
    [("emissions", 0.25), ("ecological", 0.25), ("necessity", 0.20),
     ("infrastructure", 0.10), ("resource", 0.10),
     ("artificial_support", 0.05), ("economic", 0.05)]),
   ("analyst",
    [("infrastructure", 0.143), ("necessity", 0.143), ("resource", 0.143),
     ("artificial_support", 0.143), ("ecological", 0.143),
     ("economic", 0.143), ("emissions", 0.143)]),
   ("citizen",
    [("necessity", 0.25), ("ecological", 0.20), ("infrastructure", 0.20),
     ("economic", 0.15), ("emissions", 0.10), ("artificial_support", 0.05),
     ("resource", 0.05)])]

/-- `_get_equal_weights`. -/
def equalWeights : List (String × ℚ) :=
  ["infrastructure", "necessity", "resource", "artificial_support",
   "ecological", "economic", "emissions"].map (fun d => (d, 1 / 7))

/-- The mutable state of an `FVI_Aggregator`. -/
structure AggState where
  weights : List (String × List (String × ℚ))
  currentPersona : String
  currentWeights : List (String × ℚ)
  scoresDf : Option DFrame

/-- `set_persona`: unknown personas fall back to `"analyst"`; only the
active persona and weight vector change. -/
def set_persona (st : AggState) (p : String) : AggState :=
  let q := if (st.weights.map Prod.fst).contains p then p else "analyst"
  { st with currentPersona := q, currentWeights := (st.weights.lookup q).getD [] }

/-- The internal `self.scores_df` after `compute_fvi`'s rename plus the
median fills on the intersected columns. -/
def renameFillDf (w : List (String × ℚ)) (df : DFrame) : DFrame :=
  { index := df.index,
    cols := (renamedCols df).map (fun p =>
      if (availableCols w df).contains p.1
      then (p.1, (fillColumn p.2).map some) else p) }

/-- `compute_fvi` as a state transformer: it also stores the renamed (and,
when the intersection is non-empty, filled) copy in `self.scores_df`. -/
def compute_fvi_state (st : AggState) (df : DFrame) :
    AggState × List (String × Option ℚ) :=
  if df.index.isEmpty || df.cols.isEmpty then (st, [])
  else if (availableCols st.currentWeights df).isEmpty then
    ({ st with scoresDf := some ⟨df.index, renamedCols df⟩ }, [])
  else
    ({ st with scoresDf := some (renameFillDf st.currentWeights df) },
     compute_fvi st.currentWeights df)

/-- One iteration of `compare_personas`' persona loop: switch persona,
recompute, append the series. -/
def comparePersonasStep (df : DFrame)
    (acc : AggState × List (String × List (String × Option ℚ)))
    (pw : String × List (String × ℚ)) :
    AggState × List (String × List (String × Option ℚ)) :=
  ((compute_fvi_state (set_persona acc.1 pw.1) df).1,
   acc.2 ++ [(pw.1, (compute_fvi_state (set_persona acc.1 pw.1) df).2)])

/-- `compare_personas`: recompute the FVI under every defined persona and
restore the originally active persona afterwards. -/
def compare_personas (st : AggState) (df : DFrame) :
    AggState × List (String × List (String × Option ℚ)) :=
  (set_persona (st.weights.foldl (comparePersonasStep df) (st, [])).1
     st.currentPersona,
   (st.weights.foldl (comparePersonasStep df) (st, [])).2)

/-! ## Heap model for the aliasing claim

Python objects live on a heap; `scores_df.copy()` allocates a fresh object
and the in-place `rename` / `fillna` writes hit only that fresh slot. -/

/-- A heap of DataFrame objects addressed by position, plus the aggregator's
`self.scores_df` reference. -/
structure HeapState where
  heap : List DFrame
  scoresRef : Option ℕ

/-- `compute_fvi` at the heap level: the caller passes a reference `ref`;
the body copies (`heap ++ [df]`), then renames and fills in place at the
fresh reference only. -/
def compute_fvi_heap (hs : HeapState) (w : List (String × ℚ)) (ref : ℕ) :
    HeapState × List (String × Option ℚ) :=
  let df := (hs.heap.get? ref).getD ⟨[], []⟩
  if df.index.isEmpty || df.cols.isEmpty then (hs, [])
  else
    let newRef := hs.heap.length
    let heap1 := hs.heap ++ [df]
    let heap2 := heap1.set newRef ⟨df.index, renamedCols df⟩
    if (availableCols w df).isEmpty then
      ({ heap := heap2, scoresRef := some newRef }, [])
    else
      let heap3 := heap2.set newRef (renameFillDf w df)
      ({ heap := heap3, scoresRef := some newRef }, compute_fvi w df)

/-- A weight profile with every weight multiplied by the constant `c`. -/
def scaleWeights (c : ℚ) (w : List (String × ℚ)) : List (String × ℚ) :=
  w.map (fun p => (p.1, c * p.2))


/-- From the spec: `Σ(score_d · weight_d)` for the country at position `i`,
over the intersected dimensions, after missing-value filling. -/
def fviNum (w : List (String × ℚ)) (df : DFrame) (i : ℕ) : ℚ :=
  ((availableCols w df).map (fun c =>
    (fillColumn (getCol (renamedCols df) c)).getD i 0 * wGet w c)).sum


/-- The six columns `_calculate_scores_for_dataset` reads values from. -/
def infraScoreCols : List String :=
  ["coal_dependency_score", "transition_feasibility_score", "hazard_score",
   "reclamation_potential_score", "root_cause_score", "electricity_coal_pct"]


/-! ## General association-list and series lemmas -/

theorem nodup_lookup {β : Type _} {xs : List (String × β)}
    (h : (xs.map Prod.fst).Nodup) {k : String} {v : β}
    (hm : (k, v) ∈ xs) : xs.lookup k = some v := by
  induction xs with
  | nil => cases hm
  | cons p rest ih =>
    obtain ⟨k', v'⟩ := p
    simp only [List.map_cons, List.nodup_cons] at h
    rcases List.mem_cons.mp hm with heq | hmem
    · cases heq
      simp [List.lookup]
    · have hk : ¬ (k == k') = true := by
        simp only [beq_iff_eq]
        intro hkk
        exact h.1 (hkk ▸ List.mem_map.mpr ⟨(k, v), hmem, rfl⟩)
      simp only [List.lookup, Bool.not_eq_true] at hk ⊢
      rw [hk]
      exact ih h.2 hmem

theorem lookup_snd_eq {β : Type _} {xs : List (String × β)} {c : β}
    (h : ∀ p ∈ xs, p.2 = c) : ∀ {k : String} {v : β},
    xs.lookup k = some v → v = c := by
  induction xs with
  | nil => intro k v hl; simp [List.lookup] at hl
  | cons p rest ih =>
    intro k v hl
    obtain ⟨k', v'⟩ := p
    rw [List.lookup] at hl
    cases hbeq : (k == k') with
    | true =>
        rw [hbeq] at hl
        have hv : v' = v := by injection hl
        subst hv
        exact h (k', v') (by simp)
    | false =>
        rw [hbeq] at hl
        exact ih (fun q hq => h q (List.mem_cons_of_mem _ hq)) hl

theorem lookup_mem {β : Type _} {xs : List (String × β)} {k : String} {v : β}
    (h : xs.lookup k = some v) : ∃ k', (k', v) ∈ xs := by
  induction xs with
  | nil => simp [List.lookup] at h
  | cons p rest ih =>
    obtain ⟨k', v'⟩ := p
    rw [List.lookup] at h
    cases hbeq : (k == k') with
    | true =>
        rw [hbeq] at h
        cases h
        exact ⟨k', by simp⟩
    | false =>
        rw [hbeq] at h
        obtain ⟨k'', hk''⟩ := ih h
        exact ⟨k'', List.mem_cons_of_mem _ hk''⟩

theorem zip_map_snd_lookup {β γ : Type _} (f : β → γ) :
    ∀ (ks : List String) (vs : List β) (k : String),
    (ks.zip (vs.map f)).lookup k = ((ks.zip vs).lookup k).map f := by
  intro ks
  induction ks with
  | nil => intro vs k; simp [List.lookup]
  | cons a ks ih =>
    intro vs k
    cases vs with
    | nil => simp [List.lookup]
    | cons v vs =>
      simp only [List.map_cons, List.zip_cons_cons, List.lookup]
      cases hbeq : (k == a) with
      | true => rfl
      | false => exact ih vs k

theorem presentPairs_map_snd (series : List (String × Option ℚ)) :
    (presentPairs series).map Prod.snd = seriesVals series := by
  induction series with
  | nil => rfl
  | cons p rest ih =>
    obtain ⟨l, v⟩ := p
    cases v <;> simp [seriesVals, presentPairs, List.filterMap_cons] <;>
      simpa [seriesVals, presentPairs] using ih

theorem mem_presentPairs {series : List (String × Option ℚ)} {l : String}
    {v : ℚ} (h : (l, some v) ∈ series) : (l, v) ∈ presentPairs series :=
  List.mem_filterMap.mpr ⟨(l, some v), h, rfl⟩

theorem presentPairs_keys_sublist (series : List (String × Option ℚ)) :
    ((presentPairs series).map Prod.fst).Sublist (series.map Prod.fst) := by
  induction series with
  | nil => simp [presentPairs]
  | cons p rest ih =>
    obtain ⟨l, v⟩ := p
    cases v with
    | none => simpa [presentPairs, List.filterMap_cons] using ih.cons l
    | some x => simpa [presentPairs, List.filterMap_cons] using ih.cons₂ l

/-! ## Claim theorems -/

/-- **C9**: `standardize_country_name` returns `None` exactly on `None`/`NaN`
input; on any string it returns a string — the canonical name when the
upper-cased (trimmed) input is a known ISO3 code, else the alias value when
the trimmed input is a known alias, else the trimmed input unchanged — and
it is total (never raises). -/
theorem c9_standardize_country_name_total (x : Option String) :
    (standardize_country_name x = none ↔ x = none)
  ∧ (∀ s, x = some s → standardize_country_name x = some (stdStr s))
  ∧ (∀ s c, x = some s →
      COUNTRY_MAPPING.lookup (sUpper (sTrim s)) = some c →
      standardize_country_name x = some c)
  ∧ (∀ s c, x = some s →
      COUNTRY_MAPPING.lookup (sUpper (sTrim s)) = none →
      countryAliases.lookup (sTrim s) = some c →
      standardize_country_name x = some c)
  ∧ (∀ s, x = some s →
      COUNTRY_MAPPING.lookup (sUpper (sTrim s)) = none →
      countryAliases.lookup (sTrim s) = none →
      standardize_country_name x = some (sTrim s)) := by
  refine ⟨?_, ?_, ?_, ?_, ?_⟩
  · cases x <;> simp [standardize_country_name]
  · rintro s rfl; rfl
  · rintro s c rfl hmap
    simp [standardize_country_name, stdStr, hmap]
  · rintro s c rfl hmap halias
    simp [standardize_country_name, stdStr, hmap, halias]
  · rintro s rfl hmap halias
    simp [standardize_country_name, stdStr, hmap, halias]

/-- Witness for C9 at concrete inputs: an ISO3 code with whitespace, an
alias, a pass-through name, and the `None` case. -/
theorem c9_witness :
    standardize_country_name (some " DEU ") = some "Germany"
  ∧ standardize_country_name (some "Russian Federation") = some "Russia"
  ∧ standardize_country_name (some "Atlantis") = some "Atlantis"
  ∧ standardize_country_name none = none :=
  ⟨(c9_standardize_country_name_total (some " DEU ")).2.2.1 " DEU " "Germany"
      rfl (by decide),
   (c9_standardize_country_name_total (some "Russian Federation")).2.2.2.1
      "Russian Federation" "Russia" rfl (by decide) (by decide),
   by
    have h := (c9_standardize_country_name_total (some "Atlantis")).2.2.2.2
      "Atlantis" rfl (by decide) (by decide)
    simpa using h,
   (c9_standardize_country_name_total none).1.mpr rfl⟩

/-- **C6**: a population whose non-missing values are all equal (including
the all-missing case) min-max-normalizes to the neutral 50 for every entry,
with no division error; and single-value normalization with
`min_val = max_val` returns the caller's default instead of dividing. -/
theorem c6_degenerate_normalization_neutral :
    (∀ (zf pf : List ℚ → List ℚ) (series : List (String × Option ℚ))
       (hib : Bool),
       (∀ x ∈ seriesVals series, ∀ y ∈ seriesVals series, x = y) →
       ∀ p ∈ normalize_series zf pf series hib NormMethod.min_max, p.2 = 50)
  ∧ (∀ (v : Option ℚ) (mn d : ℚ), normalize_score v mn mn d = d) := by
  constructor
  · intro zf pf series hib hconst p hp
    have hvals : (presentPairs series).map Prod.snd = seriesVals series :=
      presentPairs_map_snd series
    have hall : ∀ q ∈ scaledVals zf pf ((presentPairs series).map Prod.snd)
        NormMethod.min_max, q = (50:ℚ) := by
      intro q hq
      rw [scaledVals] at hq
      by_cases hdeg : ((presentPairs series).map Prod.snd).min?.getD 0
          = ((presentPairs series).map Prod.snd).max?.getD 0
      · rw [if_pos hdeg] at hq
        obtain ⟨_, _, rfl⟩ := List.mem_map.mp hq
        rfl
      · rw [if_neg hdeg] at hq
        exfalso
        cases hmn : ((presentPairs series).map Prod.snd).min? with
        | none =>
            rw [List.min?_eq_none_iff] at hmn
            rw [hmn] at hq
            simp at hq
        | some mn =>
            cases hmx : ((presentPairs series).map Prod.snd).max? with
            | none =>
                rw [List.max?_eq_none_iff] at hmx
                rw [hmx] at hmn
                simp at hmn
            | some mx =>
                apply hdeg
                rw [hmn, hmx]
                have h1 : mn ∈ seriesVals series := by
                  rw [← hvals]
                  exact List.min?_mem (fun a b => min_choice a b) hmn
                have h2 : mx ∈ seriesVals series := by
                  rw [← hvals]
                  exact List.max?_mem (fun a b => max_choice a b) hmx
                simpa using hconst mn h1 mx h2
    have hdir : ∀ q ∈ directedVals zf pf ((presentPairs series).map Prod.snd)
        hib NormMethod.min_max, q = (50:ℚ) := by
      intro q hq
      rw [directedVals] at hq
      cases hib with
      | true => exact hall q (by simpa using hq)
      | false =>
          simp only [Bool.false_eq_true, if_false] at hq
          obtain ⟨x, hx, rfl⟩ := List.mem_map.mp hq
          rw [hall x hx]
          norm_num
    rw [normalize_series] at hp
    by_cases hemp : (presentPairs series).isEmpty
    · rw [if_pos hemp] at hp
      obtain ⟨q, _, rfl⟩ := List.mem_map.mp hp
      rfl
    · rw [if_neg hemp] at hp
      obtain ⟨l, _, rfl⟩ := List.mem_map.mp hp
      cases hlk : (((presentPairs series).map Prod.fst).zip
          (directedVals zf pf ((presentPairs series).map Prod.snd)
            hib NormMethod.min_max)).lookup l.1 with
      | none => simp [hlk]
      | some q =>
          obtain ⟨k', hk'⟩ := lookup_mem hlk
          have hqd := (List.of_mem_zip hk').2
          simp [hlk, hdir q hqd]
  · intro v mn d
    cases v <;> simp [normalize_score]

/-- Witness for C6: a constant two-entry series with a missing third entry
normalizes to 50 everywhere; a degenerate single-value rescale returns the
default. -/
theorem c6_witness :
    (∀ p ∈ normalize_series id id
        [("a", some 7), ("b", some 7), ("c", (none : Option ℚ))]
        false NormMethod.min_max, p.2 = 50)
  ∧ normalize_score (some 3) 4 4 50 = 50 :=
  ⟨c6_degenerate_normalization_neutral.1 id id _ false (by decide),
   c6_degenerate_normalization_neutral.2 (some 3) 4 50⟩

/-- **C3**: an empty intersection between the (normalized) score columns and
the active weight keys makes `compute_fvi` return the empty series, so no
country gets a numeric index. -/
theorem c3_empty_intersection_empty_result (w : List (String × ℚ))
    (df : DFrame) (h : availableCols w df = []) :
    compute_fvi w df = [] ∧ ∀ c, (compute_fvi w df).lookup c = none := by
  have hres : compute_fvi w df = [] := by
    unfold compute_fvi
    by_cases hemp : df.index.isEmpty || df.cols.isEmpty
    · rw [if_pos hemp]
    · rw [if_neg hemp]
      simp [h]
  exact ⟨hres, fun c => by rw [hres]; rfl⟩

/-- Witness for C3: a score table whose only column is unknown to the
weight profile yields the empty series. -/
theorem c3_witness :
    compute_fvi [("economic", (1:ℚ))] ⟨["A"], [("Mystery", [some 3])]⟩ = []
  ∧ ∀ c, (compute_fvi [("economic", (1:ℚ))]
      ⟨["A"], [("Mystery", [some 3])]⟩).lookup c = none :=
  c3_empty_intersection_empty_result [("economic", (1:ℚ))]
    ⟨["A"], [("Mystery", [some 3])]⟩ (by decide)

theorem heap_write_fresh (heap : List DFrame) (d e : DFrame) (ref : ℕ)
    (href : ref < heap.length) :
    ((heap ++ [d]).set heap.length e)[ref]? = heap[ref]? := by
  rw [List.getElem?_set_ne (Nat.ne_of_gt href), List.getElem?_append_left href]

/-- **C10**: `compute_fvi` never mutates the caller's scores DataFrame: the
renaming and filling happen on the freshly allocated copy
(`self.scores_df = scores_df.copy()`), so the heap cell the caller's
reference points at is unchanged by the call. -/
theorem c10_compute_fvi_preserves_caller_df (hs : HeapState)
    (w : List (String × ℚ)) (ref : ℕ) (href : ref < hs.heap.length) :
    ((compute_fvi_heap hs w ref).1.heap).get? ref = hs.heap.get? ref := by
  simp only [compute_fvi_heap, List.get?_eq_getElem?]
  split
  · rfl
  · split
    · simp only []
      rw [List.getElem?_set_ne (Nat.ne_of_gt href),
        List.getElem?_append_left href]
    · simp only []
      rw [List.getElem?_set_ne (Nat.ne_of_gt href),
        List.getElem?_set_ne (Nat.ne_of_gt href),
        List.getElem?_append_left href]

/-- Witness for C10 on a one-DataFrame heap. -/
theorem c10_witness :
    ((compute_fvi_heap ⟨[⟨["A"], [("economic", [some 3])]⟩], none⟩
        [("economic", (1:ℚ))] 0).1.heap).get? 0
      = (⟨[⟨["A"], [("economic", [some 3])]⟩], none⟩ : HeapState).heap.get? 0 :=
  c10_compute_fvi_preserves_caller_df
    ⟨[⟨["A"], [("economic", [some 3])]⟩], none⟩
    [("economic", (1:ℚ))] 0 (by decide)

/-! ## C7: renormalization invariance -/

theorem lookup_map_val {β γ : Type _} (g : β → γ) :
    ∀ (xs : List (String × β)) (k : String),
    (xs.map (fun p => (p.1, g p.2))).lookup k = (xs.lookup k).map g := by
  intro xs
  induction xs with
  | nil => intro k; rfl
  | cons p rest ih =>
    intro k
    obtain ⟨k', v⟩ := p
    simp only [List.map_cons, List.lookup]
    cases hbeq : (k == k') with
    | true => rfl
    | false => exact ih k

theorem scaleWeights_keys (c : ℚ) (w : List (String × ℚ)) :
    (scaleWeights c w).map Prod.fst = w.map Prod.fst := by
  rw [scaleWeights, List.map_map]
  rfl

theorem wGet_scaleWeights (c : ℚ) (w : List (String × ℚ)) (col : String) :
    wGet (scaleWeights c w) col = c * wGet w col := by
  rw [wGet, wGet, scaleWeights, lookup_map_val]
  cases w.lookup col with
  | none => simp
  | some v => rfl

theorem availableCols_scaleWeights (c : ℚ) (w : List (String × ℚ))
    (df : DFrame) : availableCols (scaleWeights c w) df = availableCols w df := by
  rw [availableCols, availableCols, scaleWeights_keys]

theorem zipAdd_scale (c : ℚ) : ∀ (a b : List ℚ),
    zipAdd (a.map (fun x => c * x)) (b.map (fun x => c * x))
      = (zipAdd a b).map (fun x => c * x) := by
  intro a
  induction a with
  | nil => intro b; simp [zipAdd]
  | cons x a ih =>
    intro b
    cases b with
    | nil => simp [zipAdd]
    | cons y b =>
      have ih' := ih b
      simp only [zipAdd, List.map_cons, List.zipWith_cons_cons] at ih' ⊢
      rw [ih', mul_add]

theorem foldl_zipAdd_scale (c : ℚ) : ∀ (cols : List (List ℚ))
    (init : List ℚ),
    (cols.map (fun l => l.map (fun x => c * x))).foldl zipAdd
        (init.map (fun x => c * x))
      = (cols.foldl zipAdd init).map (fun x => c * x) := by
  intro cols
  induction cols with
  | nil => intro init; rfl
  | cons a cols ih =>
    intro init
    simp only [List.map_cons, List.foldl_cons]
    rw [zipAdd_scale, ih]

theorem divClip_scale {c : ℚ} (hc : 0 < c) (num den : ℚ) :
    divClip (c * num) (c * den) = divClip num den := by
  rw [divClip, divClip]
  rcases eq_or_ne den 0 with rfl | hden
  · rw [mul_zero]
    have hnz : (c * num = 0) ↔ (num = 0) := by
      constructor
      · intro h
        rcases mul_eq_zero.mp h with h | h
        · exact absurd h hc.ne'
        · exact h
      · intro h
        rw [h, mul_zero]
    have hps : (0 < c * num) ↔ (0 < num) := by
      constructor
      · intro h
        by_contra hx
        push_neg at hx
        nlinarith
      · intro h
        exact mul_pos hc h
    simp only [if_pos rfl, hnz, hps]
    rfl
  · have hcd : c * den ≠ 0 := mul_ne_zero hc.ne' hden
    rw [if_neg hcd, if_neg hden, mul_div_mul_left _ _ hc.ne']

/-- **C7**: multiplying every weight of the active profile by one positive
constant leaves the composite FVI series unchanged (the weighted sum and
the weight sum scale together and cancel in the division). -/
theorem c7_weight_scaling_invariance (w : List (String × ℚ)) (df : DFrame)
    (c : ℚ) (hc : 0 < c) :
    compute_fvi (scaleWeights c w) df = compute_fvi w df := by
  have hweighted : fviWeighted (scaleWeights c w) df
      = (fviWeighted w df).map (fun l => l.map (fun x => c * x)) := by
    rw [fviWeighted, fviWeighted, availableCols_scaleWeights, List.map_map]
    refine List.map_congr_left ?_
    intro col _
    simp only [Function.comp_apply, List.map_map]
    refine List.map_congr_left ?_
    intro x _
    simp only [Function.comp_apply, wGet_scaleWeights]
    ring
  have hden : fviDen (scaleWeights c w) df = c * fviDen w df := by
    rw [fviDen, fviDen, availableCols_scaleWeights]
    rw [show ((availableCols w df).map
        (fun col => wGet (scaleWeights c w) col))
        = ((availableCols w df).map (fun col => c * wGet w col)) from
      List.map_congr_left (fun col _ => wGet_scaleWeights c w col)]
    rw [← List.sum_map_mul_left]
  have hrep : (List.replicate df.index.length (0:ℚ)).map
      (fun x => c * x) = List.replicate df.index.length 0 := by
    rw [List.map_replicate, mul_zero]
  have hsums : fviRowSums (scaleWeights c w) df
      = (fviRowSums w df).map (fun x => c * x) := by
    rw [fviRowSums, fviRowSums, hweighted]
    nth_rewrite 1 [← hrep]
    rw [foldl_zipAdd_scale]
  have hmap : (fviRowSums w df).map
        ((fun s => divClip s (c * fviDen w df)) ∘ (fun x => c * x))
      = (fviRowSums w df).map (fun s => divClip s (fviDen w df)) := by
    refine List.map_congr_left ?_
    intro s _
    simp only [Function.comp_apply]
    exact divClip_scale hc s (fviDen w df)
  rw [compute_fvi, compute_fvi, availableCols_scaleWeights, hsums, hden,
    List.map_map, hmap]

/-- Witness for C7: scaling a two-dimension profile by 5 leaves the
concrete composite series unchanged. -/
theorem c7_witness :
    compute_fvi (scaleWeights 5 [("economic", (1:ℚ)), ("emissions", 3)])
        ⟨["A", "B"], [("Economic", [some 10, some 20]),
                      ("Emissions", [some 30, none])]⟩
      = compute_fvi [("economic", (1:ℚ)), ("emissions", 3)]
        ⟨["A", "B"], [("Economic", [some 10, some 20]),
                      ("Emissions", [some 30, none])]⟩ :=
  c7_weight_scaling_invariance [("economic", (1:ℚ)), ("emissions", 3)]
    ⟨["A", "B"], [("Economic", [some 10, some 20]),
                  ("Emissions", [some 30, none])]⟩ 5 (by norm_num)

/-! ## C8: persona switching effects -/

theorem compute_fvi_state_frame (st : AggState) (df : DFrame) :
    (compute_fvi_state st df).1.weights = st.weights
  ∧ (compute_fvi_state st df).1.currentPersona = st.currentPersona
  ∧ (compute_fvi_state st df).1.currentWeights = st.currentWeights := by
  rw [compute_fvi_state]
  split
  · exact ⟨rfl, rfl, rfl⟩
  · split
    · exact ⟨rfl, rfl, rfl⟩
    · exact ⟨rfl, rfl, rfl⟩

theorem foldl_step_weights (df : DFrame) :
    ∀ (l : List (String × List (String × ℚ)))
      (acc : AggState × List (String × List (String × Option ℚ))),
    ((l.foldl (comparePersonasStep df) acc).1).weights = acc.1.weights := by
  intro l
  induction l with
  | nil => intro acc; rfl
  | cons pw l ih =>
    intro acc
    rw [List.foldl_cons, ih, comparePersonasStep]
    rw [(compute_fvi_state_frame _ _).1]
    rfl

/-- **C8**: `compare_personas` recomputes the index under every defined
persona and afterwards the active persona and active weight vector equal
what they were before the call (the stored `scores_df` cache is the only
state it leaves changed); and `set_persona` never touches the stored
dimension scores or the persona weight table — it changes only the active
persona and weight vector. -/
theorem c8_compare_personas_restores_state (st : AggState) (df : DFrame)
    (hp : (st.weights.map Prod.fst).contains st.currentPersona = true)
    (hw : st.currentWeights
      = (st.weights.lookup st.currentPersona).getD []) :
    ((compare_personas st df).1.currentPersona = st.currentPersona
      ∧ (compare_personas st df).1.currentWeights = st.currentWeights
      ∧ (compare_personas st df).1.weights = st.weights)
  ∧ (∀ (st' : AggState) (p : String),
      (set_persona st' p).scoresDf = st'.scoresDf
        ∧ (set_persona st' p).weights = st'.weights) := by
  constructor
  · have hwstep : ((st.weights.foldl (comparePersonasStep df)
        (st, [])).1).weights = st.weights :=
      foldl_step_weights df st.weights (st, [])
    refine ⟨?_, ?_, ?_⟩
    · show (set_persona _ st.currentPersona).currentPersona
        = st.currentPersona
      rw [set_persona]
      simp only [hwstep, hp, if_true]
    · show (set_persona _ st.currentPersona).currentWeights
        = st.currentWeights
      rw [set_persona]
      simp only [hwstep, hp, if_true]
      exact hw.symm
    · show (set_persona _ st.currentPersona).weights = st.weights
      rw [set_persona]
      exact hwstep
  · intro st' p
    exact ⟨rfl, rfl⟩

/-- Witness for C8 with the default persona table, active persona
`"analyst"`, on a one-country score table. -/
theorem c8_witness :
    ((compare_personas ⟨personaWeights, "analyst",
        (personaWeights.lookup "analyst").getD [], none⟩
        ⟨["A"], [("economic", [some 10])]⟩).1.currentPersona = "analyst"
      ∧ (compare_personas ⟨personaWeights, "analyst",
          (personaWeights.lookup "analyst").getD [], none⟩
          ⟨["A"], [("economic", [some 10])]⟩).1.currentWeights
        = (⟨personaWeights, "analyst",
            (personaWeights.lookup "analyst").getD [], none⟩ :
              AggState).currentWeights
      ∧ (compare_personas ⟨personaWeights, "analyst",
          (personaWeights.lookup "analyst").getD [], none⟩
          ⟨["A"], [("economic", [some 10])]⟩).1.weights = personaWeights)
  ∧ (∀ (st' : AggState) (p : String),
      (set_persona st' p).scoresDf = st'.scoresDf
        ∧ (set_persona st' p).weights = st'.weights) :=
  c8_compare_personas_restores_state
    ⟨personaWeights, "analyst", (personaWeights.lookup "analyst").getD [],
     none⟩
    ⟨["A"], [("economic", [some 10])]⟩ (by decide) rfl

/-! ## C1: the composite formula and its bounds -/

theorem zipAdd_length (a b : List ℚ) (h : b.length = a.length) :
    (zipAdd a b).length = a.length := by
  rw [zipAdd, List.length_zipWith, h, Nat.min_self]

theorem zipAdd_getD (a b : List ℚ) (i : ℕ) (ha : i < a.length)
    (hb : i < b.length) :
    (zipAdd a b).getD i 0 = a.getD i 0 + b.getD i 0 := by
  have hl : i < (zipAdd a b).length := by
    rw [zipAdd, List.length_zipWith]
    exact lt_min ha hb
  rw [List.getD_eq_getElem _ _ hl, List.getD_eq_getElem _ _ ha,
    List.getD_eq_getElem _ _ hb]
  simp only [zipAdd] at hl ⊢
  exact List.getElem_zipWith

theorem foldl_zipAdd_length : ∀ (cols : List (List ℚ)) (init : List ℚ),
    (∀ c ∈ cols, c.length = init.length) →
    (cols.foldl zipAdd init).length = init.length := by
  intro cols
  induction cols with
  | nil => intro init _; rfl
  | cons a cols ih =>
    intro init h
    rw [List.foldl_cons]
    have ha := h a (List.mem_cons_self a cols)
    have hz : (zipAdd init a).length = init.length := zipAdd_length init a ha
    rw [ih (zipAdd init a)
      (fun c hc => by rw [hz]; exact h c (List.mem_cons_of_mem _ hc)), hz]

theorem foldl_zipAdd_getD : ∀ (cols : List (List ℚ)) (init : List ℚ),
    (∀ c ∈ cols, c.length = init.length) → ∀ i, i < init.length →
    (cols.foldl zipAdd init).getD i 0
      = init.getD i 0 + (cols.map (fun c => c.getD i 0)).sum := by
  intro cols
  induction cols with
  | nil => intro init _ i _; simp
  | cons a cols ih =>
    intro init h i hi
    have ha := h a (List.mem_cons_self a cols)
    have hz : (zipAdd init a).length = init.length := zipAdd_length init a ha
    rw [List.foldl_cons,
      ih (zipAdd init a)
        (fun c hc => by rw [hz]; exact h c (List.mem_cons_of_mem _ hc))
        i (by rw [hz]; exact hi),
      zipAdd_getD init a i hi (by rw [ha]; exact hi)]
    rw [List.map_cons, List.sum_cons]
    ring

theorem renamedCols_length {df : DFrame}
    (hwf : ∀ q ∈ df.cols, q.2.length = df.index.length) :
    ∀ p ∈ renamedCols df, p.2.length = df.index.length := by
  intro p hp
  obtain ⟨q, hq, rfl⟩ := List.mem_map.mp hp
  exact hwf q hq

theorem getCol_length {df : DFrame}
    (hwf : ∀ q ∈ df.cols, q.2.length = df.index.length) {c : String}
    (hc : c ∈ (renamedCols df).map Prod.fst) :
    (getCol (renamedCols df) c).length = df.index.length := by
  rw [getCol]
  cases hf : (renamedCols df).find? (fun p => p.1 = c) with
  | none =>
      exfalso
      obtain ⟨p, hp, hpc⟩ := List.mem_map.mp hc
      have hsome : ((renamedCols df).find?
          (fun p => decide (p.1 = c))).isSome := by
        rw [List.find?_isSome]
        exact ⟨p, hp, by simp [hpc]⟩
      rw [hf] at hsome
      cases hsome
  | some q =>
      have hq := List.mem_of_find?_eq_some hf
      simp only [Option.map_some', Option.getD_some]
      exact renamedCols_length hwf q hq

theorem lookup_isSome_of_mem {β : Type _} {xs : List (String × β)}
    {k : String} (h : k ∈ xs.map Prod.fst) :
    ∃ v, xs.lookup k = some v := by
  induction xs with
  | nil => cases h
  | cons p rest ih =>
    obtain ⟨k', v'⟩ := p
    rw [List.lookup]
    cases hbeq : (k == k') with
    | true => exact ⟨v', rfl⟩
    | false =>
        apply ih
        rcases List.mem_cons.mp h with heq | hmem
        · exact absurd heq (by simpa using hbeq)
        · exact hmem

theorem personaWeights_pos :
    ∀ pw ∈ personaWeights, ∀ e ∈ pw.2, 0 < e.2 := by
  intro pw hpw
  fin_cases hpw <;> (intro e he; fin_cases he <;> norm_num)

theorem availableCols_sub_renamed (w : List (String × ℚ)) (df : DFrame) :
    ∀ c ∈ availableCols w df, c ∈ (renamedCols df).map Prod.fst := by
  intro c hc
  exact List.mem_of_mem_filter hc

theorem availableCols_sub_wkeys (w : List (String × ℚ)) (df : DFrame) :
    ∀ c ∈ availableCols w df, c ∈ w.map Prod.fst := by
  intro c hc
  have := (List.mem_filter.mp hc).2
  simpa using this

theorem fviDen_pos {w : List (String × ℚ)} {df : DFrame} {p : String}
    (hw : (p, w) ∈ personaWeights) (hav : availableCols w df ≠ []) :
    0 < fviDen w df := by
  rw [fviDen]
  apply List.sum_pos
  · intro a ha
    obtain ⟨c, hc, rfl⟩ := List.mem_map.mp ha
    obtain ⟨v, hv⟩ := lookup_isSome_of_mem (availableCols_sub_wkeys w df c hc)
    rw [wGet, hv, Option.getD_some]
    obtain ⟨k', hk'⟩ := lookup_mem hv
    exact personaWeights_pos (p, w) hw (k', v) hk'
  · intro h
    exact hav (List.map_eq_nil_iff.mp h)

/-- **C1**: for a non-empty rectangular dimension-score DataFrame whose
normalized columns meet the active persona's weight keys, `compute_fvi`
pairs each country with `clamp (Σ(score_d · weight_d) / Σ weight_d)` over
the intersected dimensions (after median filling), and that composite
index always lies in `[0, 100]`. -/
theorem c1_compute_fvi_weighted_mean_clamped
    (w : List (String × ℚ)) (df : DFrame) (p : String)
    (hw : (p, w) ∈ personaWeights)
    (hne : (df.index.isEmpty || df.cols.isEmpty) = false)
    (hwf : ∀ q ∈ df.cols, q.2.length = df.index.length)
    (hav : ¬ (availableCols w df).isEmpty = true) :
    ∀ (i : ℕ) (country : String), df.index.get? i = some country →
      (compute_fvi w df).get? i
        = some (country, some (clamp (fviNum w df i / fviDen w df)))
      ∧ 0 ≤ clamp (fviNum w df i / fviDen w df)
      ∧ clamp (fviNum w df i / fviDen w df) ≤ 100 := by
  intro i country hci
  have hi : i < df.index.length := by
    rw [List.get?_eq_getElem?] at hci
    exact (List.getElem?_eq_some.mp hci).1
  have hcollen : ∀ ccc ∈ fviWeighted w df,
      ccc.length = (List.replicate df.index.length (0:ℚ)).length := by
    intro ccc hccc
    obtain ⟨c, hc, rfl⟩ := List.mem_map.mp hccc
    rw [List.length_map, List.length_replicate, fillColumn, List.length_map]
    exact getCol_length hwf (availableCols_sub_renamed w df c hc)
  have hslen : (fviRowSums w df).length = df.index.length := by
    rw [fviRowSums, foldl_zipAdd_length _ _ hcollen, List.length_replicate]
  have hrepD : (List.replicate df.index.length (0:ℚ)).getD i 0 = 0 := by
    rw [List.getD_eq_getElem _ _ (by rwa [List.length_replicate])]
    simp
  have hsum : (fviRowSums w df).getD i 0 = fviNum w df i := by
    rw [fviRowSums, foldl_zipAdd_getD _ _ hcollen i
      (by rw [List.length_replicate]; exact hi), hrepD, zero_add]
    rw [fviWeighted, List.map_map, fviNum]
    congr 1
    refine List.map_congr_left ?_
    intro c hc
    simp only [Function.comp_apply]
    have hlen : i < (fillColumn (getCol (renamedCols df) c)).length := by
      rw [fillColumn, List.length_map,
        getCol_length hwf (availableCols_sub_renamed w df c hc)]
      exact hi
    rw [List.getD_eq_getElem _ _ (by rw [List.length_map]; exact hlen),
      List.getElem_map, List.getD_eq_getElem _ _ hlen]
  have hden : 0 < fviDen w df := by
    refine fviDen_pos hw ?_
    intro h
    exact hav (by rw [h]; rfl)
  have hcf : compute_fvi w df = df.index.zip
      ((fviRowSums w df).map (fun s => divClip s (fviDen w df))) := by
    rw [compute_fvi, hne]
    simp only [Bool.false_eq_true, if_false, if_neg hav]
  rw [hcf]
  refine ⟨?_, clamp_nonneg _, clamp_le_100 _⟩
  rw [List.get?_eq_getElem?, List.getElem?_zip_eq_some]
  constructor
  · rw [← List.get?_eq_getElem?]
    exact hci
  · rw [List.getElem?_map]
    have hrs : (fviRowSums w df)[i]? = some ((fviRowSums w df).getD i 0) := by
      rw [List.getD_eq_getElem _ _ (by rw [hslen]; exact hi)]
      exact List.getElem?_eq_getElem _
    rw [hrs, hsum, Option.map_some']
    rw [divClip, if_neg (ne_of_gt hden)]

/-- Witness for C1: the analyst persona on a two-country, two-dimension
table with one missing value, read at the first country. -/
theorem c1_witness :
    (compute_fvi ((personaWeights.lookup "analyst").getD [])
        ⟨["A", "B"], [("Economic", [some 10, some 20]),
                      ("Infrastructure", [some 30, none])]⟩).get? 0
      = some ("A", some (clamp
          (fviNum ((personaWeights.lookup "analyst").getD [])
            ⟨["A", "B"], [("Economic", [some 10, some 20]),
                          ("Infrastructure", [some 30, none])]⟩ 0
           / fviDen ((personaWeights.lookup "analyst").getD [])
            ⟨["A", "B"], [("Economic", [some 10, some 20]),
                          ("Infrastructure", [some 30, none])]⟩)))
    ∧ 0 ≤ clamp
          (fviNum ((personaWeights.lookup "analyst").getD [])
            ⟨["A", "B"], [("Economic", [some 10, some 20]),
                          ("Infrastructure", [some 30, none])]⟩ 0
           / fviDen ((personaWeights.lookup "analyst").getD [])
            ⟨["A", "B"], [("Economic", [some 10, some 20]),
                          ("Infrastructure", [some 30, none])]⟩)
    ∧ clamp
          (fviNum ((personaWeights.lookup "analyst").getD [])
            ⟨["A", "B"], [("Economic", [some 10, some 20]),
                          ("Infrastructure", [some 30, none])]⟩ 0
           / fviDen ((personaWeights.lookup "analyst").getD [])
            ⟨["A", "B"], [("Economic", [some 10, some 20]),
                          ("Infrastructure", [some 30, none])]⟩)
        ≤ 100 :=
  c1_compute_fvi_weighted_mean_clamped
    ((personaWeights.lookup "analyst").getD [])
    ⟨["A", "B"], [("Economic", [some 10, some 20]),
                  ("Infrastructure", [some 30, none])]⟩
    "analyst" (by simp [personaWeights, List.lookup]) rfl
    (by
      intro q hq
      fin_cases hq <;> rfl)
    (by decide) 0 "A" rfl

/-! ## C2: score-range bounds -/

theorem keepLastBy_subset (f : Row → Option Val) :
    ∀ (l : List Row) (r : Row), r ∈ keepLastBy f l → r ∈ l := by
  intro l
  induction l with
  | nil => intro r h; cases h
  | cons a rest ih =>
    intro r h
    rw [keepLastBy] at h
    split at h
    · exact List.mem_cons_of_mem _ (ih r h)
    · rcases List.mem_cons.mp h with rfl | h
      · exact List.mem_cons_self _ _
      · exact List.mem_cons_of_mem _ (ih r h)

theorem pickMaxYearRow_mem {rows : List Row} {k : Val} {r : Row}
    (h : pickMaxYearRow rows k = some r) : r ∈ rows := by
  rw [pickMaxYearRow] at h
  split at h
  · cases h
  · exact List.mem_of_mem_filter (List.mem_of_mem_filter
      (List.mem_of_find?_eq_some h))

theorem latest_rows_subset (t : Table) :
    ∀ r ∈ (get_latest_data_by_country t).rows, r ∈ t.rows := by
  intro r hr
  rw [get_latest_data_by_country] at hr
  split at hr
  · exact hr
  · split at hr
    · simp only [] at hr
      obtain ⟨k, _, hk⟩ := List.mem_filterMap.mp hr
      exact pickMaxYearRow_mem hk
    · exact keepLastBy_subset _ _ r hr

theorem hscale_bounds {q : ℚ} (h0 : 0 ≤ q) (h1 : q ≤ 100) :
    0 ≤ hscale q ∧ hscale q ≤ 100 := by
  rw [hscale]
  split
  · exact ⟨mul_nonneg h0 (by norm_num), by nlinarith⟩
  · exact ⟨h0, h1⟩

theorem row_dataset_score_bounds {r : Row}
    (h : ∀ c ∈ infraScoreCols, ∀ q, rowNum r c = some q → 0 ≤ q ∧ q ≤ 100) :
    0 ≤ row_dataset_score r ∧ row_dataset_score r ≤ 100 := by
  rw [row_dataset_score]
  cases h1 : rowNum r "coal_dependency_score" with
  | some q =>
      obtain ⟨a, b⟩ := h _ (by decide) q h1
      exact hscale_bounds a b
  | none =>
  cases h2 : rowNum r "transition_feasibility_score" with
  | some q =>
      obtain ⟨a, b⟩ := h _ (by decide) q h2
      exact hscale_bounds a b
  | none =>
  cases h3 : rowNum r "hazard_score" with
  | some q =>
      obtain ⟨a, b⟩ := h _ (by decide) q h3
      exact hscale_bounds a b
  | none =>
  cases h4 : rowNum r "reclamation_potential_score" with
  | some q =>
      obtain ⟨a, b⟩ := h _ (by decide) q h4
      exact hscale_bounds a b
  | none =>
  cases h5 : rowNum r "root_cause_score" with
  | some q =>
      obtain ⟨a, b⟩ := h _ (by decide) q h5
      exact hscale_bounds a b
  | none =>
  cases h6 : rowNum r "electricity_coal_pct" with
  | some q => exact h _ (by decide) q h6
  | none => norm_num

theorem fallback_scores_bounds :
    ∀ (cl : List String) (p : String × ℚ),
    p ∈ fallback_infrastructure_scores cl → 0 ≤ p.2 ∧ p.2 ≤ 100 := by
  intro cl p hp
  rw [fallback_infrastructure_scores] at hp
  obtain ⟨c, _, rfl⟩ := List.mem_map.mp hp
  cases hl : fallback_infra_table.lookup c with
  | none => simp [hl]; norm_num
  | some v =>
      obtain ⟨k', hk'⟩ := lookup_mem hl
      have htbl : ∀ e ∈ fallback_infra_table, 0 ≤ e.2 ∧ e.2 ≤ 100 := by
        decide
      have := htbl (k', v) hk'
      simp only [hl, Option.getD_some]
      exact this

/-- **C2 counterexample**: a dataset whose `coal_dependency_score` cell holds
150 (already on a >1 scale) passes the `score <= 1.0` heuristic unscaled and
becomes a per-dataset infrastructure score of 150 > 100, so dimension scores
are not always within `[0, 100]`. -/
theorem c2_counterexample :
    calculate_scores_for_dataset
      ⟨["country_name", "coal_dependency_score"],
       [[("country_name", some (.str "India")),
         ("coal_dependency_score", some (.num 150))]]⟩
      ["India"] = [("India", 150)]
  ∧ ¬ (∀ p ∈ calculate_scores_for_dataset
      ⟨["country_name", "coal_dependency_score"],
       [[("country_name", some (.str "India")),
         ("coal_dependency_score", some (.num 150))]]⟩ ["India"],
      0 ≤ p.2 ∧ p.2 ≤ 100) := by
  have h1 : sContainsSub (sLower "country_name") "country" = true := by decide
  have h2 : sContainsSub (sLower "coal_dependency_score") "country" = false := by
    decide
  have h3 : ("year" : String) ≠ "country_name" := by decide
  have h4 : ("year" : String) ≠ "coal_dependency_score" := by decide
  have h : calculate_scores_for_dataset
      ⟨["country_name", "coal_dependency_score"],
       [[("country_name", some (.str "India")),
         ("coal_dependency_score", some (.num 150))]]⟩
      ["India"] = [("India", 150)] := by
    simp [calculate_scores_for_dataset, get_latest_data_by_country,
      country_score, country_rows, keepLastBy, h1, h2, h3, h4,
      row_dataset_score, rowNum, rowCell, rowFind, hscale, List.find?]
  refine ⟨h, ?_⟩
  rw [h]
  intro hall
  have hv := (hall ("India", 150) (by simp)).2
  norm_num at hv

theorem scaledVals_min_max (zf pf : List ℚ → List ℚ) (vals : List ℚ) :
    scaledVals zf pf vals NormMethod.min_max
      = vals.map (minmaxScale vals) := by
  rw [scaledVals]
  by_cases h : vals.min?.getD 0 = vals.max?.getD 0
  · rw [if_pos h]
    refine List.map_congr_left ?_
    intro x _
    rw [minmaxScale]
    simp [h]
  · rw [if_neg h]
    refine List.map_congr_left ?_
    intro x _
    rw [minmaxScale]
    simp [h]

theorem lookup_map_keyfun {β : Type _} (f : String → β) :
    ∀ (xs : List (String × Option ℚ)) (l : String),
    l ∈ xs.map Prod.fst →
    (xs.map (fun p => (p.1, f p.1))).lookup l = some (f l) := by
  intro xs
  induction xs with
  | nil => intro l hl; cases hl
  | cons p rest ih =>
    intro l hl
    obtain ⟨k, v⟩ := p
    simp only [List.map_cons, List.lookup]
    cases hbeq : (l == k) with
    | true =>
        have : l = k := by simp at hbeq; exact hbeq
        subst this
        rfl
    | false =>
        have hne : l ≠ k := by simpa using hbeq
        apply ih
        rcases List.mem_cons.mp hl with h | h
        · exact absurd h hne
        · exact h

/-- **C4 counterexample**: on the series `a ↦ 0, b ↦ 100` with min-max
scaling the scaled values are `0` and `100`; with direction higher-is-worse
(`higher_is_better = false`) the source returns them inverted
(`a ↦ 100, b ↦ 0`), not unchanged as the claim states. -/
theorem c4_counterexample :
    normalize_series id id [("a", some 0), ("b", some 100)] false
        NormMethod.min_max = [("a", 100), ("b", 0)]
  ∧ normalize_series id id [("a", some 0), ("b", some 100)] false
        NormMethod.min_max ≠ [("a", 0), ("b", 100)] := by
  have h : normalize_series id id [("a", some 0), ("b", some 100)] false
      NormMethod.min_max = [("a", 100), ("b", 0)] := by
    simp [normalize_series, presentPairs, scaledVals, directedVals,
      List.filterMap, List.lookup]
  refine ⟨h, ?_⟩
  rw [h]
  intro hceq
  have hc := congrArg (fun xs => (List.lookup "a" xs).getD 37) hceq
  simp [List.lookup] at hc

/-- **C4** (amended): the directional normalizer leaves the scaled value
unchanged when `higher_is_better` is true and inverts it (`100 - scaled`)
when `higher_is_better` is false: the whole higher-is-worse output is the
pointwise complement of the higher-is-better output (under every scaling
method), and with min-max scaling the higher-is-better output at a present
label is exactly the min-max-scaled value. -/
theorem c4_amended_directionality :
    (∀ (zf pf : List ℚ → List ℚ) (series : List (String × Option ℚ))
       (m : NormMethod),
       normalize_series zf pf series false m
         = (normalize_series zf pf series true m).map
             (fun p => (p.1, 100 - p.2)))
  ∧ (∀ (zf pf : List ℚ → List ℚ) (series : List (String × Option ℚ))
       (l : String) (v : ℚ), (series.map Prod.fst).Nodup →
       (l, some v) ∈ series →
       (normalize_series zf pf series true NormMethod.min_max).lookup l
         = some (minmaxScale (seriesVals series) v)) := by
  constructor
  · intro zf pf series m
    rw [normalize_series, normalize_series]
    by_cases hemp : (presentPairs series).isEmpty
    · rw [if_pos hemp, if_pos hemp, List.map_map]
      refine List.map_congr_left ?_
      intro p _
      simp only [Function.comp_apply]
      norm_num
    · rw [if_neg hemp, if_neg hemp, List.map_map]
      refine List.map_congr_left ?_
      intro p _
      simp only [Function.comp_apply]
      have hdt : directedVals zf pf ((presentPairs series).map Prod.snd)
          true m = scaledVals zf pf ((presentPairs series).map Prod.snd) m := by
        simp [directedVals]
      have hdf : directedVals zf pf ((presentPairs series).map Prod.snd)
          false m = (scaledVals zf pf ((presentPairs series).map Prod.snd)
            m).map (fun x => 100 - x) := by
        simp [directedVals]
      rw [hdt, hdf, zip_map_snd_lookup]
      cases (((presentPairs series).map Prod.fst).zip
          (scaledVals zf pf ((presentPairs series).map Prod.snd)
            m)).lookup p.1 with
      | none => norm_num
      | some q => rfl
  · intro zf pf series l v hnd hm
    have hmem := mem_presentPairs hm
    have hemp : ¬ (presentPairs series).isEmpty = true := by
      intro h
      rw [List.isEmpty_iff] at h
      rw [h] at hmem
      cases hmem
    rw [normalize_series, if_neg hemp]
    rw [lookup_map_keyfun
      (fun k => ((((presentPairs series).map Prod.fst).zip
        (directedVals zf pf ((presentPairs series).map Prod.snd)
          true NormMethod.min_max)).lookup k).getD 50)
      series l (List.mem_map.mpr ⟨(l, some v), hm, rfl⟩)]
    have hdt : directedVals zf pf ((presentPairs series).map Prod.snd)
        true NormMethod.min_max
          = ((presentPairs series).map Prod.snd).map
              (minmaxScale ((presentPairs series).map Prod.snd)) := by
      simp [directedVals, scaledVals_min_max]
    rw [hdt, List.map_map, List.zip_map']
    have hlk : (List.map (fun p =>
          (p.1, minmaxScale ((presentPairs series).map Prod.snd) p.2))
          (presentPairs series)).lookup l
        = some (minmaxScale ((presentPairs series).map Prod.snd) v) := by
      apply nodup_lookup
      · rw [List.map_map]
        have hfst : (Prod.fst ∘ fun p : String × ℚ =>
            (p.1, minmaxScale ((presentPairs series).map Prod.snd) p.2))
              = Prod.fst := by
          funext p
          rfl
        rw [hfst]
        exact hnd.sublist (presentPairs_keys_sublist series)
      · exact List.mem_map.mpr ⟨(l, v), hmem, rfl⟩
    simp only [Function.comp] at *
    rw [hlk]
    simp [presentPairs_map_snd]

/-- Witness for C4's amended theorem at a concrete series. -/
theorem c4_witness :
    normalize_series id id [("a", some (2:ℚ))] false NormMethod.min_max
        = (normalize_series id id [("a", some (2:ℚ))] true
            NormMethod.min_max).map (fun p => (p.1, 100 - p.2))
  ∧ (normalize_series id id [("a", some (2:ℚ)), ("b", some 4)] true
        NormMethod.min_max).lookup "b"
      = some (minmaxScale (seriesVals [("a", some 2), ("b", some 4)]) 4) :=
  ⟨c4_amended_directionality.1 id id [("a", some (2:ℚ))] NormMethod.min_max,
   c4_amended_directionality.2 id id [("a", some (2:ℚ)), ("b", some 4)]
     "b" 4 (by decide) (by decide)⟩

/-- **C2** (amended): the resource feature scorer is always within
`[0, 100]` (its final clamp guarantees it for every `log10`
interpretation and feature set); the infrastructure per-dataset scores lie
in `[0, 100]` provided every value the dataset supplies in the six score
columns already lies in `[0, 100]` (without that proviso the `*_score`
pass-through violates the bound, see the counterexample); and the
weighted component aggregate lies in `[0, 100]` whenever every component
score does. -/
theorem c2_amended_score_bounds :
    (∀ (log10f : ℚ → ℚ) (features : List (String × ℚ)),
       0 ≤ score_from_features log10f features
         ∧ score_from_features log10f features ≤ 100)
  ∧ (∀ (t : Table) (country_list : List String),
       (∀ r ∈ t.rows, ∀ c ∈ infraScoreCols, ∀ q,
         rowNum r c = some q → 0 ≤ q ∧ q ≤ 100) →
       ∀ p ∈ calculate_scores_for_dataset t country_list,
         0 ≤ p.2 ∧ p.2 ≤ 100)
  ∧ (∀ (cs : List (String × List (String × ℚ))) (country_list : List String),
       (∀ pc ∈ cs, ∀ e ∈ pc.2, 0 ≤ e.2 ∧ e.2 ≤ 100) →
       ∀ p ∈ aggregate_infrastructure_scores cs country_list,
         0 ≤ p.2 ∧ p.2 ≤ 100) := by
  refine ⟨?_, ?_, ?_⟩
  · intro log10f features
    rw [score_from_features]
    split
    · norm_num
    · constructor
      · exact le_min (by norm_num) (le_max_left 0 _)
      · exact min_le_left _ _
  · intro t country_list hvals p hp
    rw [calculate_scores_for_dataset] at hp
    split at hp
    · cases hp
    · obtain ⟨country, _, rfl⟩ := List.mem_map.mp hp
      rw [country_score]
      split
      case _ r hr =>
        have hrmem : r ∈ t.rows := by
          apply latest_rows_subset
          have hr' := List.mem_of_getLast?_eq_some hr
          rw [country_rows] at hr'
          split at hr'
          · split at hr'
            · exact List.mem_of_mem_filter hr'
            · cases hr'
          · exact List.mem_of_mem_filter hr'
        exact row_dataset_score_bounds (hvals r hrmem)
      case _ => norm_num
  · intro cs country_list hb p hp
    rw [aggregate_infrastructure_scores] at hp
    split at hp
    · exact fallback_scores_bounds country_list p hp
    case _ hcs =>
      obtain ⟨country, _, rfl⟩ := List.mem_map.mp hp
      have hlen : 0 < cs.length := by
        cases cs with
        | nil => simp at hcs
        | cons a l => simp
      have hterms : ∀ e ∈ componentEntries cs country,
          (0 ≤ e.2 ∧ e.2 ≤ 100) ∧ 0 < componentWeight cs.length e.1 := by
        intro e he
        obtain ⟨pc, hpc, heq⟩ := List.mem_filterMap.mp he
        constructor
        · rcases hov : pc.2.lookup country with _ | v
          · rw [hov] at heq; cases heq
          · rw [hov] at heq
            injection heq with heq'
            obtain ⟨k', hk'⟩ := lookup_mem hov
            have := hb pc hpc (k', v) hk'
            rw [← heq']
            exact this
        · rw [componentWeight]
          cases hcw : default_component_weights.lookup e.1 with
          | none =>
              simp only [Option.getD_none]
              positivity
          | some w =>
              obtain ⟨k', hk'⟩ := lookup_mem hcw
              have hdw : ∀ q ∈ default_component_weights, 0 < q.2 := by
                intro q hq
                fin_cases hq <;> norm_num
              simpa using hdw (k', w) hk'
      rw [aggCountryScore]
      split
      · norm_num
      · split
        case _ htw =>
          constructor
          · apply div_nonneg _ (le_of_lt htw)
            apply List.sum_nonneg
            intro a ha
            obtain ⟨e, he, rfl⟩ := List.mem_map.mp ha
            exact mul_nonneg ((hterms e he).1.1)
              (le_of_lt (hterms e he).2)
          · rw [div_le_iff₀ htw]
            calc ((componentEntries cs country).map (fun e =>
                  e.2 * componentWeight cs.length e.1)).sum
                ≤ ((componentEntries cs country).map (fun e =>
                  100 * componentWeight cs.length e.1)).sum := by
                  apply List.sum_le_sum
                  intro e he
                  exact mul_le_mul_of_nonneg_right ((hterms e he).1.2)
                    (le_of_lt (hterms e he).2)
              _ = 100 * ((componentEntries cs country).map (fun e =>
                  componentWeight cs.length e.1)).sum := by
                  rw [← List.sum_map_mul_left]
        case _ => norm_num

/-- Witness for C2's amended theorem: a resource feature set, an
infrastructure dataset with in-range values, and a one-component aggregate
all stay within `[0, 100]`. -/
theorem c2_witness :
    (0 ≤ score_from_features id [("production_mt", 1000)]
       ∧ score_from_features id [("production_mt", 1000)] ≤ 100)
  ∧ (∀ p ∈ calculate_scores_for_dataset
        ⟨["country_name", "electricity_coal_pct"],
         [[("country_name", some (.str "India")),
           ("electricity_coal_pct", some (.num 60))]]⟩ ["India"],
        0 ≤ p.2 ∧ p.2 ≤ 100)
  ∧ (∀ p ∈ aggregate_infrastructure_scores
        [("coal_dependency", [("India", 40)])] ["India"],
        0 ≤ p.2 ∧ p.2 ≤ 100) :=
  ⟨c2_amended_score_bounds.1 id [("production_mt", 1000)],
   c2_amended_score_bounds.2.1 _ ["India"] (by
    intro r hr c hc q hq
    simp only [List.mem_singleton] at hr
    subst hr
    fin_cases hc <;>
      (simp [rowNum, rowCell, rowFind, List.find?] at hq
       try (simp [← hq]; norm_num))),
   c2_amended_score_bounds.2.2 _ ["India"] (by decide)⟩

/-! ## C5: metric extractor preference and fallback -/

theorem firstSome_append {α β : Type _} (f : α → Option β) :
    ∀ (l1 l2 : List α), firstSome f (l1 ++ l2)
      = (match firstSome f l1 with
         | some v => some v
         | none => firstSome f l2) := by
  intro l1 l2
  induction l1 with
  | nil => rfl
  | cons a l1 ih =>
    rw [List.cons_append, firstSome, firstSome]
    cases f a with
    | some v => rfl
    | none => exact ih

theorem firstSome_eq_none_iff {α β : Type _} (f : α → Option β) :
    ∀ (l : List α), firstSome f l = none ↔ ∀ a ∈ l, f a = none := by
  intro l
  induction l with
  | nil => simp [firstSome]
  | cons a l ih =>
    rw [firstSome]
    cases hfa : f a with
    | some v =>
        simp only [List.mem_cons]
        constructor
        · intro h; cases h
        · intro h
          have := h a (Or.inl rfl)
          rw [hfa] at this
          cases this
    | none =>
        rw [ih]
        constructor
        · intro h b hb
          rcases List.mem_cons.mp hb with rfl | hb
          · exact hfa
          · exact h b hb
        · intro h b hb
          exact h b (List.mem_cons_of_mem _ hb)

theorem firstSome_congr {α β : Type _} {f g : α → Option β} :
    ∀ (l : List α), (∀ a ∈ l, f a = g a) →
      firstSome f l = firstSome g l := by
  intro l
  induction l with
  | nil => intro _; rfl
  | cons a l ih =>
    intro h
    rw [firstSome, firstSome, h a (List.mem_cons_self a l),
      ih (fun b hb => h b (List.mem_cons_of_mem _ hb))]

theorem innerKeys_eq_firstSome (datasets : List (String × Table))
    (country column : String) : ∀ (keys : List String),
    innerKeys datasets country column keys
      = firstSome (tryKey datasets country column) keys := by
  intro keys
  induction keys with
  | nil => rfl
  | cons k keys ih =>
    rw [innerKeys, firstSome, ih]
    cases tryKey datasets country column k <;> rfl

theorem prefKinds_eq_firstSome (datasets : List (String × Table))
    (kindIndex : List (String × List String)) (country column : String) :
    ∀ (prefs : List String),
    prefKinds datasets kindIndex country column prefs
      = firstSome (tryKey datasets country column)
          (prefs.flatMap (fun k => (kindIndex.lookup k).getD [])) := by
  intro prefs
  induction prefs with
  | nil => rfl
  | cons kind prefs ih =>
    rw [prefKinds, List.flatMap_cons, firstSome_append,
      innerKeys_eq_firstSome, ih]
    cases firstSome (tryKey datasets country column)
      ((kindIndex.lookup kind).getD []) <;> rfl

theorem fallbackScan_eq_firstSome (country column : String) :
    ∀ (datasets : List (String × Table)),
    (datasets.map Prod.fst).Nodup →
    fallbackScan country column datasets
      = firstSome (tryKey datasets country column)
          (datasets.map Prod.fst) := by
  intro datasets
  induction datasets with
  | nil => intro _; rfl
  | cons p rest ih =>
    intro hnd
    obtain ⟨k, df⟩ := p
    simp only [List.map_cons, List.nodup_cons] at hnd
    rw [fallbackScan, List.map_cons, firstSome]
    have hk : tryKey ((k, df) :: rest) country column k
        = tryDf country column df := by
      rw [tryKey, tryDf, List.lookup]
      simp
    rw [hk]
    cases tryDf country column df with
    | some v => rfl
    | none =>
        rw [ih hnd.2]
        refine firstSome_congr _ ?_
        intro key hkey
        rw [tryKey, tryKey, List.lookup]
        have hne : (key == k) = false := by
          simp only [beq_eq_false_iff_ne, ne_eq]
          intro hkk
          exact hnd.1 (hkk ▸ hkey)
        rw [hne]

theorem yearLE_refl (x : Option ℚ) : yearLE x x = true := by
  cases x <;> simp [yearLE]

instance : IsTotal Row rowYearLE := by
  constructor
  intro a b
  unfold rowYearLE
  cases ha : rowNum a "year" with
  | none => cases hb : rowNum b "year" with
    | none => left; rfl
    | some y => right; rfl
  | some x => cases hb : rowNum b "year" with
    | none => left; rfl
    | some y =>
        simp only [yearLE, decide_eq_true_eq]
        exact le_total x y

instance : IsTrans Row rowYearLE := by
  constructor
  intro a b c hab hbc
  unfold rowYearLE at hab hbc ⊢
  cases ha : rowNum a "year" <;> cases hb : rowNum b "year" <;>
    cases hc : rowNum c "year" <;> (simp_all [yearLE]; try linarith)

theorem keepLastBy_split (f : Row → Option Val) :
    ∀ (l : List Row) (r : Row), r ∈ keepLastBy f l →
    ∃ l1 l2, l = l1 ++ r :: l2 ∧ ∀ r' ∈ l2, ¬ f r' = f r := by
  intro l
  induction l with
  | nil => intro r h; cases h
  | cons a rest ih =>
    intro r h
    rw [keepLastBy] at h
    split at h
    · obtain ⟨l1, l2, heq, hl2⟩ := ih r h
      exact ⟨a :: l1, l2, by rw [heq]; rfl, hl2⟩
    case isFalse hdup =>
      rcases List.mem_cons.mp h with rfl | hmem
      · refine ⟨[], rest, rfl, ?_⟩
        intro r' hr' heq
        exact hdup (List.any_eq_true.mpr ⟨r', hr', by simp [heq]⟩)
      · obtain ⟨l1, l2, heq, hl2⟩ := ih r hmem
        exact ⟨a :: l1, l2, by rw [heq]; rfl, hl2⟩

/-- **C5**: the metric extractor equals the first non-missing probe along
the preferred-kind key chain followed by the full dataset scan (so
preferred kinds are tried in order, the fallback scans every loaded
dataset, and `None` is returned exactly when no probe anywhere yields a
value — it never raises); and with a year column, every row
`_latest_by_country` keeps comes from the original table and carries the
maximal year among its country's rows (`NaN` years sorting last, as
pandas places them). -/
theorem c5_metric_extractor_preference_fallback
    (datasets : List (String × Table))
    (kindIndex : List (String × List String)) (country : String)
    (preferences : List String) (column : String)
    (hkeys : (datasets.map Prod.fst).Nodup) :
    (get_metric_from_kinds datasets kindIndex country preferences column
       = firstSome (tryKey datasets country column)
           ((preferences.flatMap (fun k => (kindIndex.lookup k).getD []))
             ++ datasets.map Prod.fst))
  ∧ (get_metric_from_kinds datasets kindIndex country preferences column
        = none
      ↔ ∀ key ∈ (preferences.flatMap
            (fun k => (kindIndex.lookup k).getD []))
              ++ datasets.map Prod.fst,
          tryKey datasets country column key = none)
  ∧ (∀ (t : Table) (ccol : String),
      COUNTRY_COLS.find? (fun c => t.cols.contains c) = some ccol →
      t.cols.contains "year" = true →
      ∀ r ∈ (latest_by_country t).rows,
        r ∈ t.rows
        ∧ ∀ r' ∈ t.rows, rowCell r' ccol = rowCell r ccol →
            yearLE (rowNum r' "year") (rowNum r "year") = true) := by
  have hmain : get_metric_from_kinds datasets kindIndex country preferences
      column = firstSome (tryKey datasets country column)
        ((preferences.flatMap (fun k => (kindIndex.lookup k).getD []))
          ++ datasets.map Prod.fst) := by
    rw [get_metric_from_kinds, prefKinds_eq_firstSome, firstSome_append,
      fallbackScan_eq_firstSome country column datasets hkeys]
    cases firstSome (tryKey datasets country column)
      (preferences.flatMap (fun k => (kindIndex.lookup k).getD [])) <;> rfl
  refine ⟨hmain, ?_, ?_⟩
  · rw [hmain, firstSome_eq_none_iff]
  · intro t ccol hccol hyear r hr
    rw [latest_by_country, hccol] at hr
    rw [hyear] at hr
    simp only [if_true] at hr
    have hperm := List.perm_insertionSort rowYearLE t.rows
    have hsorted := List.sorted_insertionSort rowYearLE t.rows
    have hrs : r ∈ List.insertionSort rowYearLE t.rows :=
      keepLastBy_subset _ _ r hr
    constructor
    · exact hperm.mem_iff.mp hrs
    · intro r' hr' hsame
      have hr's : r' ∈ List.insertionSort rowYearLE t.rows :=
        hperm.mem_iff.mpr hr'
      obtain ⟨l1, l2, heq, hl2⟩ := keepLastBy_split _ _ r hr
      rw [heq] at hr's hsorted
      rcases List.mem_append.mp hr's with h1 | h2
      · have hpw := (List.pairwise_append.mp hsorted).2.2
        exact hpw r' h1 r (List.mem_cons_self r l2)
      · rcases List.mem_cons.mp h2 with rfl | h2
        · exact yearLE_refl _
        · exact absurd hsame (hl2 r' h2)

/-- Witness for C5 on a one-dataset, one-kind configuration with a
two-year table. -/
theorem c5_witness :
    (get_metric_from_kinds
        [("s1", ⟨["country", "year", "production_mt"],
          [[("country", some (.str "China")), ("year", some (.num 2020)),
            ("production_mt", some (.num 4000))],
           [("country", some (.str "China")), ("year", some (.num 2021)),
            ("production_mt", some (.num 4300))]]⟩)]
        [("resource_score1", ["s1"])] "China" ["resource_score1"]
        "production_mt"
       = firstSome (tryKey
           [("s1", ⟨["country", "year", "production_mt"],
             [[("country", some (.str "China")), ("year", some (.num 2020)),
               ("production_mt", some (.num 4000))],
              [("country", some (.str "China")), ("year", some (.num 2021)),
               ("production_mt", some (.num 4300))]]⟩)]
           "China" "production_mt")
           (((["resource_score1"] : List String).flatMap
             (fun k => (([("resource_score1", ["s1"])] :
               List (String × List String)).lookup k).getD []))
             ++ [("s1", (⟨["country", "year", "production_mt"],
               [[("country", some (.str "China")), ("year", some (.num 2020)),
                 ("production_mt", some (.num 4000))],
                [("country", some (.str "China")), ("year", some (.num 2021)),
                 ("production_mt", some (.num 4300))]]⟩ : Table))].map
                   Prod.fst))
  ∧ (get_metric_from_kinds
        [("s1", ⟨["country", "year", "production_mt"],
          [[("country", some (.str "China")), ("year", some (.num 2020)),
            ("production_mt", some (.num 4000))],
           [("country", some (.str "China")), ("year", some (.num 2021)),
            ("production_mt", some (.num 4300))]]⟩)]
        [("resource_score1", ["s1"])] "China" ["resource_score1"]
        "production_mt" = none
      ↔ ∀ key ∈ ((["resource_score1"] : List String).flatMap
            (fun k => (([("resource_score1", ["s1"])] :
              List (String × List String)).lookup k).getD []))
              ++ [("s1", (⟨["country", "year", "production_mt"],
                [[("country", some (.str "China")),
                  ("year", some (.num 2020)),
                  ("production_mt", some (.num 4000))],
                 [("country", some (.str "China")),
                  ("year", some (.num 2021)),
                  ("production_mt", some (.num 4300))]]⟩ : Table))].map
                    Prod.fst,
          tryKey [("s1", ⟨["country", "year", "production_mt"],
            [[("country", some (.str "China")), ("year", some (.num 2020)),
              ("production_mt", some (.num 4000))],
             [("country", some (.str "China")), ("year", some (.num 2021)),
              ("production_mt", some (.num 4300))]]⟩)]
            "China" "production_mt" key = none)
  ∧ (∀ (t : Table) (ccol : String),
      COUNTRY_COLS.find? (fun c => t.cols.contains c) = some ccol →
      t.cols.contains "year" = true →
      ∀ r ∈ (latest_by_country t).rows,
        r ∈ t.rows
        ∧ ∀ r' ∈ t.rows, rowCell r' ccol = rowCell r ccol →
            yearLE (rowNum r' "year") (rowNum r "year") = true) :=
  c5_metric_extractor_preference_fallback
    [("s1", ⟨["country", "year", "production_mt"],
      [[("country", some (.str "China")), ("year", some (.num 2020)),
        ("production_mt", some (.num 4000))],
       [("country", some (.str "China")), ("year", some (.num 2021)),
        ("production_mt", some (.num 4300))]]⟩)]
    [("resource_score1", ["s1"])] "China" ["resource_score1"]
    "production_mt" (by decide)


end FVI
